import Mathlib

/-!
Verification of the taubot accounting engine (src/accounting.py) against its
natural-language specification.

The development shallowly embeds the in-memory accounting state machine
(`InMemoryServer` and friends), the wealth-tax engine (`WealthTaxBracket`,
`TaxMan`), the recurring-transfer scheduler (`notify_tick_elapsed`), and the
ledger verification loop (`LedgerServer._read_ledger`, `has_leading_zeros`).

Modelling conventions:
- Python `Fraction` balances become `ℚ`.
- Python `Account` objects are kept in an object store `accountData : List
  Account`; an account is referred to by its index (object identity), mirroring
  Python reference semantics, including aliasing when two parameters refer to
  the same object.
- Python dicts become association lists where assignment replaces an existing
  binding in place (as Python dict assignment preserves insertion position) and
  otherwise appends.
- Python exceptions become `Except String`; an operation that raises after
  partial mutation returns the partially mutated state where that matters
  (`TaxMan.tax`).
-/

namespace Taubot

/-- Authorization levels, from `class Authorization(Enum)`:
CITIZEN = 0, OFFICER = 1, ADMIN = 2, DEVELOPER = 3. -/
inductive Authorization where
  | citizen
  | officer
  | admin
  | developer
deriving DecidableEq

/-- An in-memory account, from `InMemoryAccount.__init__`: fresh accounts get
balance 0, frozen = False, public = False, auth = CITIZEN, no public keys and
no proxies.  `proxies` is a Python set of `Account` objects; we store the
object ids (indices into the account store) of the proxy accounts, kept
duplicate-free by the insertion operation. -/
structure Account where
  uuid : String
  balance : ℚ
  frozen : Bool
  public : Bool
  auth : Authorization
  publicKeys : List String
  proxies : List Nat
deriving DecidableEq

/-- A recurring transfer, from `InMemoryRecurringTransfer.__init__`.
`source` and `destination` are object ids of the two accounts. -/
structure RecurringTransfer where
  uuid : String
  author : String
  source : Nat
  destination : Nat
  totalAmount : ℚ
  tickCount : ℕ
  remainingAmount : ℚ
deriving DecidableEq

/-- A wealth-tax bracket, from `WealthTaxBracket.__init__`.  The Python field
`end` is called `stop` here (`end` is reserved in Lean).  The default exempt
prefixes are `['&', '@']`. -/
structure TaxBracket where
  start : ℚ
  stop : Option ℚ
  rate : ℚ
  exemptPrefixes : List String
deriving DecidableEq

/-- Python `round` on an exact rational: round to the nearest integer, ties to
the even integer (banker's rounding). -/
def pyRound (q : ℚ) : ℤ :=
  let f := q.floor
  let frac := q - f
  if frac < 1/2 then f
  else if 1/2 < frac then f + 1
  else if f % 2 = 0 then f else f + 1

/-- Association-list lookup (first binding wins, like a Python dict whose keys
are unique). -/
def assocLookup {α β : Type} [DecidableEq α] (l : List (α × β)) (k : α) : Option β :=
  match l with
  | [] => none
  | (k', v) :: rest => if k' = k then some v else assocLookup rest k

/-- Association-list assignment: replaces an existing binding in place (Python
dict assignment keeps the original insertion position) and otherwise appends. -/
def assocInsert {α β : Type} [DecidableEq α] (l : List (α × β)) (k : α) (v : β) :
    List (α × β) :=
  match l with
  | [] => [(k, v)]
  | (k', v') :: rest =>
      if k' = k then (k, v) :: rest else (k', v') :: assocInsert rest k v

/-- Set-style insertion used for `proxied_account.proxies.add(account)`. -/
def setInsert (l : List Nat) (x : Nat) : List Nat :=
  if x ∈ l then l else l ++ [x]

/-- The full server state of an `InMemoryServer` composed with a `TaxMan`
(as in `LedgerServer`):
- `accounts`: the dict from identity string to account object,
- `accountData`: the object store (index = object identity),
- `invAccounts`: `inv_accounts`, the dict from account object to its ids,
- `recurring`: `recurring_transfers`, keyed by transfer id,
- `taxBrackets`: `TaxMan.tax_brackets`, keyed by bracket name. -/
structure ServerState where
  accounts : List (String × Nat)
  accountData : List Account
  invAccounts : List (Nat × List String)
  recurring : List (String × RecurringTransfer)
  taxBrackets : List (String × TaxBracket)
deriving DecidableEq

/-- A fresh `InMemoryAccount`: the supplied uuid if any, otherwise the fresh
uuid drawn by `uuid.uuid4()` (passed in explicitly to keep the model pure). -/
def mkInMemoryAccount (uuidOpt : Option String) (fresh : String) : Account :=
  { uuid := uuidOpt.getD fresh
    balance := 0
    frozen := false
    public := false
    auth := .citizen
    publicKeys := []
    proxies := [] }

/-- Reads an account object from the store. -/
def getData (st : ServerState) (objId : Nat) : Option Account :=
  st.accountData[objId]?

/-- Applies a function to the account object at `objId` (Python mutates the
object in place; absent ids cannot occur in the Python code, which holds
object references, and leave the state unchanged here). -/
def modifyAccount (st : ServerState) (objId : Nat) (f : Account → Account) :
    ServerState :=
  match st.accountData[objId]? with
  | some a => { st with accountData := st.accountData.set objId (f a) }
  | none => st

/-- Embeds `InMemoryServer.has_account` (identities are modelled in canonical string
form, so `unwrap_proxies` is the identity here). -/
def hasAccount (st : ServerState) (id : String) : Bool :=
  (assocLookup st.accounts id).isSome

/-- Embeds `InMemoryServer.open_account`: raises if the id already resolves to an
account, otherwise creates a fresh account object, binds the id to it and
records the id in `inv_accounts`. -/
def openAccount (st : ServerState) (id : String) (uuidOpt : Option String)
    (fresh : String) : Except String (ServerState × Nat) :=
  if hasAccount st id then .error "Account already exists."
  else
    let objId := st.accountData.length
    let account := mkInMemoryAccount uuidOpt fresh
    .ok ({ st with
            accounts := assocInsert st.accounts id objId
            accountData := st.accountData ++ [account]
            invAccounts := st.invAccounts ++ [(objId, [id])] }, objId)

/-- Embeds `InMemoryServer.add_account_alias`. -/
def addAccountAlias (st : ServerState) (objId : Nat) (aliasId : String) :
    ServerState :=
  { st with
      accounts := assocInsert st.accounts aliasId objId
      invAccounts :=
        match assocLookup st.invAccounts objId with
        | some ids => assocInsert st.invAccounts objId (ids ++ [aliasId])
        | none => assocInsert st.invAccounts objId [aliasId] }

/-- Embeds `Server.can_transfer`: `amount > 0 and source.get_balance() - amount >= 0
and not source.is_frozen() and not destination.is_frozen()`. -/
def canTransfer (source destination : Account) (amount : ℚ) : Bool :=
  amount > 0 && source.balance - amount ≥ 0 &&
    !source.frozen && !destination.frozen

/-- Embeds `Server.can_transfer` applied to two accounts in the store. -/
def canTransferIn (st : ServerState) (source destination : Nat) (amount : ℚ) :
    Bool :=
  match getData st source, getData st destination with
  | some src, some dst => canTransfer src dst amount
  | _, _ => false

/-- Embeds `InMemoryServer.transfer`: checks `can_transfer`, raising before any
mutation if it fails; otherwise debits the source and then credits the
destination (the destination balance is re-read after the debit, which matters
when both parameters are the same object).  The `author` is only logged. -/
def transfer (st : ServerState) (author : String) (source destination : Nat)
    (amount : ℚ) : Except String ServerState :=
  match getData st source, getData st destination with
  | some src, some dst =>
      if canTransfer src dst amount then
        let st1 := modifyAccount st source
          (fun a => { a with balance := a.balance - amount })
        let st2 := modifyAccount st1 destination
          (fun a => { a with balance := a.balance + amount })
        .ok st2
      else .error "Cannot perform transfer."
  | _, _ => .error "No such account."

/-- Embeds `InMemoryServer.print_money`: unconditionally adds `amount`. -/
def printMoney (st : ServerState) (objId : Nat) (amount : ℚ) : ServerState :=
  modifyAccount st objId (fun a => { a with balance := a.balance + amount })

/-- Embeds `InMemoryServer.remove_funds`: unconditionally subtracts `amount`; the
source performs no positivity or balance check. -/
def removeFunds (st : ServerState) (objId : Nat) (amount : ℚ) : ServerState :=
  modifyAccount st objId (fun a => { a with balance := a.balance - amount })

/-- Embeds `InMemoryServer.set_frozen`. -/
def setFrozen (st : ServerState) (objId : Nat) (b : Bool) : ServerState :=
  modifyAccount st objId (fun a => { a with frozen := b })

/-- Embeds `InMemoryServer.authorize`. -/
def authorize (st : ServerState) (objId : Nat) (lvl : Authorization) :
    ServerState :=
  modifyAccount st objId (fun a => { a with auth := lvl })

/-- Embeds `InMemoryServer.mark_public`. -/
def markPublic (st : ServerState) (objId : Nat) (b : Bool) : ServerState :=
  modifyAccount st objId (fun a => { a with public := b })

/-- Embeds `InMemoryServer.add_public_key`. -/
def addPublicKey (st : ServerState) (objId : Nat) (key : String) : ServerState :=
  modifyAccount st objId (fun a => { a with publicKeys := a.publicKeys ++ [key] })

/-- Embeds `InMemoryServer.add_proxy`: `proxied_account.proxies.add(account)`. -/
def addProxy (st : ServerState) (accountObj proxiedObj : Nat) : ServerState :=
  modifyAccount st proxiedObj
    (fun a => { a with proxies := setInsert a.proxies accountObj })

/-- Embeds `InMemoryServer.remove_proxy`: removes the relation when present and
returns `not prev_in` (True exactly when the relation was absent). -/
def removeProxy (st : ServerState) (accountObj proxiedObj : Nat) :
    ServerState × Bool :=
  match getData st proxiedObj with
  | some p =>
      let prevIn := accountObj ∈ p.proxies
      (if prevIn then
        modifyAccount st proxiedObj
          (fun a => { a with proxies := a.proxies.filter (· ≠ accountObj) })
       else st,
       !prevIn)
  | none => (st, true)

/-- Embeds `InMemoryServer.create_recurring_transfer`: registers a transfer with
`remaining_amount = total_amount` under a transfer id (supplied or fresh). -/
def createRecurringTransfer (st : ServerState) (author : String)
    (source destination : Nat) (total : ℚ) (ticks : ℕ) (tid : String) :
    ServerState :=
  let t : RecurringTransfer :=
    { uuid := tid, author := author, source := source,
      destination := destination, totalAmount := total,
      tickCount := ticks, remainingAmount := total }
  { st with recurring := assocInsert st.recurring tid t }

/-- Embeds `InMemoryServer.perform_recurring_transfer`: performs the underlying
transfer (which raises if it cannot be performed) and then decrements
`remaining_amount`. -/
def performRecurringTransfer (st : ServerState) (tid : String) (amount : ℚ) :
    Except String ServerState :=
  match assocLookup st.recurring tid with
  | some t =>
      (transfer st t.author t.source t.destination amount).map (fun st1 =>
        let t1 := { t with remainingAmount := t.remainingAmount - amount }
        { st1 with recurring := assocInsert st1.recurring tid t1 })
  | none => .error "No such recurring transfer."

/-- One visit of `InMemoryServer.notify_tick_elapsed`'s loop body for the
transfer registered under `tid`.  Returns the updated state and whether the
id was added to `finished_transfers`.  Mirrors the source faithfully: in the
final branch (`0 < remaining < per_tick`) the source binds
`remaining = transfer.get_total_amount()`, i.e. the *total* amount, and
transfers that. -/
def tickOne (st : ServerState) (tid : String) : ServerState × Bool :=
  match assocLookup st.recurring tid with
  | none => (st, false)
  | some t =>
      let perTick := t.totalAmount / (t.tickCount : ℚ)
      if t.remainingAmount ≤ 0 then (st, true)
      else if t.remainingAmount ≥ perTick then
        if canTransferIn st t.source t.destination perTick then
          (((performRecurringTransfer st tid perTick).toOption).getD st, false)
        else (st, false)
      else
        let remaining := t.totalAmount
        if canTransferIn st t.source t.destination remaining then
          (((performRecurringTransfer st tid remaining).toOption).getD st, true)
        else (st, false)

/-- Embeds `InMemoryServer.notify_tick_elapsed`: iterates over the registered
recurring transfers in insertion order, then deletes the transfers collected
in `finished_transfers` after the pass. -/
def notifyTickElapsed (st : ServerState) : ServerState :=
  let ids := st.recurring.map (·.1)
  let stAndFin := ids.foldl
    (fun (acc : ServerState × List String) tid =>
      let r := tickOne acc.1 tid
      (r.1, if r.2 then acc.2 ++ [tid] else acc.2))
    (st, [])
  { stAndFin.1 with
      recurring := stAndFin.1.recurring.filter (fun p => p.1 ∉ stAndFin.2) }

/-- Embeds `WealthTaxBracket.get_tax`: zero below `start`; `round(((bal - start) /
100) * rate)` when `end` is absent or `bal <= end`; otherwise the cap
`round(((end - start) / 100) * rate)`. -/
def getTax (b : TaxBracket) (bal : ℚ) : ℚ :=
  if bal < b.start then 0
  else
    match b.stop with
    | none => (pyRound ((bal - b.start) / 100 * b.rate) : ℚ)
    | some e =>
        if bal ≤ e then (pyRound ((bal - b.start) / 100 * b.rate) : ℚ)
        else (pyRound ((e - b.start) / 100 * b.rate) : ℚ)

/-- Embeds `Server.get_account_id` composed with `inv_accounts`: the first identity
registered for the account object. -/
def getAccountId (st : ServerState) (objId : Nat) : String :=
  (((assocLookup st.invAccounts objId).getD []).head?).getD ""

/-- Tests whether an identity string starts with one of the prefixes, as in
`str(...).startswith(tuple(bracket.exempt_prefixes))`. -/
def startsWithAny (s : String) (prefixes : List String) : Bool :=
  prefixes.any (fun p => p.isPrefixOf s)

/-- Embeds `TaxMan.get_account_tax`: sums `bracket.get_tax(account)` over all
brackets whose exempt prefixes do not match the account's identity. -/
def getAccountTax (st : ServerState) (objId : Nat) : ℚ :=
  match getData st objId with
  | none => 0
  | some a =>
      (st.taxBrackets.filter
        (fun p => !startsWithAny (getAccountId st objId) p.2.exemptPrefixes)).foldl
        (fun acc p => acc + getTax p.2 a.balance) 0

/-- Insertion into a list sorted by an identity-string key; used to model
Python's `sorted(..., key=...)` (keys are distinct in all states of
interest, so stability is irrelevant). -/
def insertByKey (key : Nat → String) (x : Nat) : List Nat → List Nat
  | [] => [x]
  | y :: ys => if key x ≤ key y then x :: y :: ys else y :: insertByKey key x ys

/-- Sorting by an identity-string key. -/
def sortByKey (key : Nat → String) : List Nat → List Nat
  | [] => []
  | x :: xs => insertByKey key x (sortByKey key xs)

/-- Embeds `InMemoryServer.list_accounts`: the distinct account objects, sorted by
the string form of their representative identity. -/
def listAccounts (st : ServerState) : List Nat :=
  sortByKey (getAccountId st) ((st.accounts.map (·.2)).eraseDups)

/-- The loop of `TaxMan.tax` over a list of account objects: each account's
liability is computed and, when non-zero, transferred to the government
account.  A failing transfer raises, so the loop stops there: the state
accumulated so far is kept (mutations already applied persist past the
exception) and the remaining accounts are not visited. -/
def taxLoop (gov : Nat) (st : ServerState) :
    List Nat → ℚ → ServerState × Except String ℚ
  | [], total => (st, .ok total)
  | a :: rest, total =>
      let due := getAccountTax st a
      if due ≠ 0 then
        match transfer st "@government" a gov due with
        | .ok st1 => taxLoop gov st1 rest (total + due)
        | .error e => (st, .error e)
      else taxLoop gov st rest total

/-- Embeds `TaxMan.tax`, with the government account at object id `gov` (the account
opened by `InMemoryServer.__init__`): taxes every account in
`list_accounts()` order.  Returns the resulting state (partial when a
collection raises) and the outcome. -/
def taxCollect (gov : Nat) (st : ServerState) : ServerState × Except String ℚ :=
  taxLoop gov st (listAccounts st) 0

/-- Embeds `TaxMan.add_tax_bracket` (brackets created through it always carry the
default exempt prefixes). -/
def addTaxBracket (st : ServerState) (start : ℚ) (stop : Option ℚ) (rate : ℚ)
    (name : String) : ServerState :=
  let b : TaxBracket := ⟨start, stop, rate, ["&", "@"]⟩
  { st with taxBrackets := assocInsert st.taxBrackets name b }

/-- Embeds `TaxMan.remove_tax_bracket`. -/
def removeTaxBracket (st : ServerState) (name : String) : ServerState :=
  { st with taxBrackets := st.taxBrackets.filter (fun p => p.1 ≠ name) }

/-- Embeds `InMemoryServer.__init__`: the server starts with the single account
`@government` at authorization level DEVELOPER (object id 0). -/
def initialState : ServerState :=
  { accounts := [("@government", 0)]
    accountData := [{ mkInMemoryAccount none "gov-uuid" with auth := .developer }]
    invAccounts := [(0, ["@government"])]
    recurring := []
    taxBrackets := [] }

/-- The state-machine operations of the server (the commands recognised by
the ledger dispatcher, restricted to those that the in-memory state machine
implements without crashing).  Fresh uuids and transfer ids, drawn with
`uuid.uuid4()` in the source, appear as explicit arguments. -/
inductive Op where
  | openAcc (id : String) (uuidOpt : Option String) (fresh : String)
  | addAlias (objId : Nat) (aliasId : String)
  | transferOp (author : String) (source destination : Nat) (amount : ℚ)
  | printMoneyOp (objId : Nat) (amount : ℚ)
  | removeFundsOp (objId : Nat) (amount : ℚ)
  | setFrozenOp (objId : Nat) (b : Bool)
  | authorizeOp (objId : Nat) (lvl : Authorization)
  | markPublicOp (objId : Nat) (b : Bool)
  | addPublicKeyOp (objId : Nat) (key : String)
  | addProxyOp (accountObj proxiedObj : Nat)
  | removeProxyOp (accountObj proxiedObj : Nat)
  | createRecurringOp (author : String) (source destination : Nat)
      (total : ℚ) (ticks : ℕ) (tid : String)
  | performRecurringOp (tid : String) (amount : ℚ)
  | tickOp
  | addTaxBracketOp (start : ℚ) (stop : Option ℚ) (rate : ℚ) (name : String)
  | removeTaxBracketOp (name : String)
  | forceTaxOp

/-- Applies one operation to the server state.  An operation that raises
before mutating leaves the state unchanged; `force-tax` keeps the mutations
applied before the exception (the source has no rollback). -/
def applyOp (st : ServerState) : Op → ServerState
  | .openAcc id uuidOpt fresh =>
      match openAccount st id uuidOpt fresh with
      | .ok r => r.1
      | .error _ => st
  | .addAlias objId aliasId => addAccountAlias st objId aliasId
  | .transferOp author source destination amount =>
      match transfer st author source destination amount with
      | .ok st1 => st1
      | .error _ => st
  | .printMoneyOp objId amount => printMoney st objId amount
  | .removeFundsOp objId amount => removeFunds st objId amount
  | .setFrozenOp objId b => setFrozen st objId b
  | .authorizeOp objId lvl => authorize st objId lvl
  | .markPublicOp objId b => markPublic st objId b
  | .addPublicKeyOp objId key => addPublicKey st objId key
  | .addProxyOp accountObj proxiedObj => addProxy st accountObj proxiedObj
  | .removeProxyOp accountObj proxiedObj =>
      (removeProxy st accountObj proxiedObj).1
  | .createRecurringOp author source destination total ticks tid =>
      createRecurringTransfer st author source destination total ticks tid
  | .performRecurringOp tid amount =>
      match performRecurringTransfer st tid amount with
      | .ok st1 => st1
      | .error _ => st
  | .tickOp => notifyTickElapsed st
  | .addTaxBracketOp start stop rate name => addTaxBracket st start stop rate name
  | .removeTaxBracketOp name => removeTaxBracket st name
  | .forceTaxOp => (taxCollect 0 st).1

/-- The states reachable from the initial server state by sequences of
state-machine operations. -/
inductive Reachable : ServerState → Prop
  | init : Reachable initialState
  | step (st : ServerState) (op : Op) :
      Reachable st → Reachable (applyOp st op)

/-- Every account balance in the state is non-negative. -/
def allNonneg (st : ServerState) : Prop :=
  ∀ a ∈ st.accountData, 0 ≤ a.balance

/-- The total money supply: the sum of all account balances. -/
def totalSupply (st : ServerState) : ℚ :=
  (st.accountData.map (·.balance)).sum

/-! Ledger verification (`LedgerServer._read_ledger`, `has_leading_zeros`,
`compute_hash`).  A ledger entry line is `<hex_digest> <salt> <timestamp>
<command> <args...>`; the verification loop recomputes
`compute_hash(last_hash, elems[1:])` for each line, rejects the load when the
recomputed digest differs from `elems[0]` or lacks the configured number of
leading zero bits, and otherwise chains on the recomputed digest.  The SHA3-256
digest is abstracted as a function `H` from the previous digest and the
entry's remaining fields to a hex digest (a list of hex digit values). -/

/-- Embeds `has_leading_zeros(hexdigest, zero_count)`: the first `zero_count // 4`
hex digits must be `'0'`, and when `zero_count % 4 = rem > 0` the next digit
must be below 8, 4 or 2 for `rem` = 1, 2, 3 respectively (an out-of-range
index, which raises in Python, counts as failure). -/
def hasLeadingZeros (d : List Nat) (zeroCount : Nat) : Bool :=
  let q := zeroCount / 4
  let rem := zeroCount % 4
  if (d.take q).length < q then false
  else if (d.take q).any (· ≠ 0) then false
  else if rem = 0 then true
  else
    match d[q]? with
    | none => false
    | some digit =>
        if rem = 1 then digit < 8
        else if rem = 2 then digit < 4
        else digit < 2

/-- The four bits of a hex digit, most significant first. -/
def hexDigitBits (x : Nat) : List Nat :=
  [x / 8 % 2, x / 4 % 2, x / 2 % 2, x % 2]

/-- The bit string denoted by a hex digest (digit values, most significant
bit first). -/
def hexBits : List Nat → List Nat
  | [] => []
  | x :: rest => hexDigitBits x ++ hexBits rest

/-- The number of leading zero bits of a hex digest. -/
def leadingZeroBits (d : List Nat) : Nat :=
  ((hexBits d).takeWhile (fun b => b == 0)).length

/-- A parsed ledger entry: the stored digest `elems[0]` (as hex digit values)
and the remaining fields `elems[1:]` (salt, timestamp, command, arguments). -/
structure LedgerEntry where
  storedDigest : List Nat
  body : List String
deriving DecidableEq

/-- The verification loop of `LedgerServer._read_ledger` (the state-machine
dispatch that follows a successful check is the `applyOp` step relation
above; only the integrity checks are modelled here).  On each entry the
expected digest is recomputed from the running chain digest and the entry's
fields; the load aborts with an error if it differs from the stored digest or
fails the difficulty check, and otherwise the chain digest advances to the
recomputed digest. -/
def checkLedger (H : List Nat → List String → List Nat) (difficulty : Nat) :
    List Nat → List LedgerEntry → Except String Unit
  | _, [] => .ok ()
  | prev, e :: rest =>
      let expected := H prev e.body
      if expected ≠ e.storedDigest then
        .error "ledger hash value does not match expected hash value."
      else if !hasLeadingZeros e.storedDigest difficulty then
        .error "hash value does not have enough leading zeros."
      else checkLedger H difficulty expected rest

/-- The running chain digest before entry `i`: the digest recomputation only
depends on the entry bodies, so it can be expressed as a fold. -/
def chainDigest (H : List Nat → List String → List Nat) (prev : List Nat)
    (entries : List LedgerEntry) (i : Nat) : List Nat :=
  ((entries.take i).map (·.body)).foldl H prev

/-- Iterated ticks. -/
def tickN (n : Nat) (st : ServerState) : ServerState :=
  Nat.iterate notifyTickElapsed n st

/-- The recurring-transfer example scenario: two accounts funded with 20
units each and a recurring transfer of 20 units from the first to the second
over 10 ticks. -/
def exampleRecurringState : ServerState :=
  let st1 := applyOp initialState (.openAcc "sender" none "u1")
  let st2 := applyOp st1 (.openAcc "receiver" none "u2")
  let st3 := applyOp st2 (.printMoneyOp 1 20)
  let st4 := applyOp st3 (.printMoneyOp 2 20)
  applyOp st4 (.createRecurringOp "sender" 1 2 20 10 "t1")

/-- The worked tax example scenario: one account holding 2000 units and the
brackets `[0, 500]` at rate 10, `[500, 1000]` at rate 20 and `[1000, 2000]`
at rate 50. -/
def exampleTaxState : ServerState :=
  let st1 := applyOp initialState (.openAcc "citizen" none "u1")
  let st2 := applyOp st1 (.printMoneyOp 1 2000)
  let st3 := applyOp st2 (.addTaxBracketOp 0 (some 500) 10 "Tax10")
  let st4 := applyOp st3 (.addTaxBracketOp 500 (some 1000) 20 "Tax20")
  applyOp st4 (.addTaxBracketOp 1000 (some 2000) 50 "Tax50")

/-- A tax pass scenario with a frozen account: `alice` (frozen, balance 2000)
sorts before `bob` (unfrozen, balance 2000); one flat 10 percent bracket. -/
def frozenTaxState : ServerState :=
  let st1 := applyOp initialState (.openAcc "alice" none "u1")
  let st2 := applyOp st1 (.openAcc "bob" none "u2")
  let st3 := applyOp st2 (.printMoneyOp 1 2000)
  let st4 := applyOp st3 (.printMoneyOp 2 2000)
  let st5 := applyOp st4 (.setFrozenOp 1 true)
  applyOp st5 (.addTaxBracketOp 0 none 10 "flat")

/-- A recurring transfer caught in its final partial installment: total 20
over 2 ticks (per-tick instalment 10), with 15 already replayed through
`perform-recurring-transfer`, so 5 remains, strictly between 0 and the
per-tick amount. -/
def partialInstallmentState : ServerState :=
  let st1 := applyOp initialState (.openAcc "alice" none "u1")
  let st2 := applyOp st1 (.openAcc "bob" none "u2")
  let st3 := applyOp st2 (.printMoneyOp 1 100)
  let st4 := applyOp st3 (.createRecurringOp "alice" 1 2 20 2 "t1")
  applyOp st4 (.performRecurringOp "t1" 15)

/-- A state with one account and a flat 10 percent tax bracket, used to
observe the effect of tax collection on the total money supply. -/
def supplyTaxState : ServerState :=
  let st1 := applyOp initialState (.openAcc "alice" none "u1")
  let st2 := applyOp st1 (.printMoneyOp 1 100)
  applyOp st2 (.addTaxBracketOp 0 none 10 "flat")

/-- A state in which an account was opened and then overdrawn through
`remove_funds`. -/
def overdrawnState : ServerState :=
  applyOp (applyOp initialState (.openAcc "alice" none "u1"))
    (.removeFundsOp 1 10)

/-- Operations whose execution respects the spec's stated preconditions for
money creation and destruction: `remove_funds` is excluded entirely (the
source performs no balance check, so it can overdraw) and `print_money` is
restricted to non-negative amounts (the source performs no positivity
check). -/
def GoodOp : Op → Prop
  | .removeFundsOp _ _ => False
  | .printMoneyOp _ amount => 0 ≤ amount
  | _ => True

/-- The states reachable using only operations satisfying `GoodOp`. -/
inductive ReachableGuarded : ServerState → Prop
  | init : ReachableGuarded initialState
  | step (st : ServerState) (op : Op) :
      ReachableGuarded st → GoodOp op → ReachableGuarded (applyOp st op)

/-- The operations that change the total money supply. -/
def ChangesSupply : Op → Prop
  | .printMoneyOp _ _ => True
  | .removeFundsOp _ _ => True
  | _ => False

/-- A toy hash function used to exercise the ledger-verification theorems on
concrete inputs: the digest is a pair of hex digits, the first always zero
(so the digest has four leading zero bits). -/
def toyHash (prev : List Nat) (body : List String) : List Nat :=
  [0, (prev.foldl (· + ·) 0 + (body.map (·.length)).foldl (· + ·) 0) % 16]

/-- A two-entry ledger that is valid for `toyHash` at difficulty 4. -/
def toyLedger : List LedgerEntry :=
  [ { storedDigest := [0, 4], body := ["salt", "123.0", "open", "alice", "u1"] },
    { storedDigest := [0, 15], body := ["s2", "124.0", "tick"] } ]

/-! Helper lemmas about the store operations. -/

theorem set_same {α : Type} (l : List α) (i : Nat) (v : α) (h : l[i]? = some v) :
    l.set i v = l := by
  induction l generalizing i with
  | nil => simp at h
  | cons x xs ih =>
      cases i with
      | zero => simp at h; simp [List.set, h]
      | succ j => simp at h; simp [List.set, ih j h]

theorem take_set {α : Type} (l : List α) (i : Nat) (v : α) :
    (l.set i v).take i = l.take i := by
  induction l generalizing i with
  | nil => simp
  | cons x xs ih =>
      cases i with
      | zero => simp
      | succ j => simp [List.set, ih j]

theorem getData_modify_ne (st : ServerState) (i j : Nat) (f : Account → Account)
    (h : j ≠ i) : getData (modifyAccount st i f) j = getData st j := by
  unfold getData modifyAccount
  cases hx : st.accountData[i]? with
  | none => rfl
  | some a => simp [List.getElem?_set, Ne.symm h]

theorem getData_modify_self (st : ServerState) (i : Nat) (f : Account → Account)
    (a : Account) (h : getData st i = some a) :
    getData (modifyAccount st i f) i = some (f a) := by
  unfold getData at h ⊢
  unfold modifyAccount
  rw [h]
  have hlen : i < st.accountData.length := by
    by_contra hc
    rw [List.getElem?_eq_none (Nat.le_of_not_lt hc)] at h
    exact Option.noConfusion h
  simp [List.getElem?_set, hlen]

theorem modify_components (st : ServerState) (i : Nat) (f : Account → Account) :
    (modifyAccount st i f).accounts = st.accounts ∧
    (modifyAccount st i f).invAccounts = st.invAccounts ∧
    (modifyAccount st i f).recurring = st.recurring ∧
    (modifyAccount st i f).taxBrackets = st.taxBrackets := by
  unfold modifyAccount
  cases st.accountData[i]? <;> simp

theorem canTransfer_iff (src dst : Account) (amount : ℚ) :
    canTransfer src dst amount = true ↔
      (0 < amount ∧ 0 ≤ src.balance - amount ∧
        src.frozen = false ∧ dst.frozen = false) := by
  unfold canTransfer
  simp [Bool.and_eq_true, decide_eq_true_iff, and_assoc]

/-- C1.  For every `transfer(author, source, dest, amount)` call on two
distinct account objects, the transfer succeeds exactly when `amount > 0`,
`balance(source) - amount >= 0` and neither account is frozen; on success the
source balance decreases by `amount`, the destination balance increases by
`amount` and no other account or state component changes; on failure the
operation returns the typed failure and the state is unchanged. -/
theorem transfer_meets_spec (st : ServerState) (author : String)
    (s d : Nat) (amount : ℚ) (A B : Account)
    (hs : getData st s = some A) (hd : getData st d = some B) (hne : s ≠ d) :
    ((∃ st1, transfer st author s d amount = .ok st1) ↔
      (0 < amount ∧ 0 ≤ A.balance - amount ∧
        A.frozen = false ∧ B.frozen = false)) ∧
    (∀ st1, transfer st author s d amount = .ok st1 →
      getData st1 s = some { A with balance := A.balance - amount } ∧
      getData st1 d = some { B with balance := B.balance + amount } ∧
      (∀ j, j ≠ s → j ≠ d → getData st1 j = getData st j) ∧
      st1.accounts = st.accounts ∧ st1.invAccounts = st.invAccounts ∧
      st1.recurring = st.recurring ∧ st1.taxBrackets = st.taxBrackets) ∧
    (¬(0 < amount ∧ 0 ≤ A.balance - amount ∧
        A.frozen = false ∧ B.frozen = false) →
      transfer st author s d amount = .error "Cannot perform transfer." ∧
      applyOp st (.transferOp author s d amount) = st) := by
  have hcan := canTransfer_iff A B amount
  by_cases hc : canTransfer A B amount = true
  · have hok : transfer st author s d amount = .ok (modifyAccount
        (modifyAccount st s (fun a => { a with balance := a.balance - amount }))
        d (fun a => { a with balance := a.balance + amount })) := by
      unfold transfer; simp only [hs, hd]; rw [if_pos hc]
    rw [hok]
    refine ⟨⟨fun _ => hcan.mp hc, fun _ => ⟨_, rfl⟩⟩, ?_, fun hn => absurd (hcan.mp hc) hn⟩
    intro st1 h1
    injection h1 with h1
    subst h1
    have h2 : getData (modifyAccount st s
        (fun a => { a with balance := a.balance - amount })) d = some B := by
      rw [getData_modify_ne st s d _ (Ne.symm hne)]; exact hd
    refine ⟨?_, ?_, ?_, ?_⟩
    · rw [getData_modify_ne _ d s _ hne]
      exact getData_modify_self st s _ A hs
    · exact getData_modify_self _ d _ B h2
    · intro j hjs hjd
      rw [getData_modify_ne _ d j _ hjd, getData_modify_ne _ s j _ hjs]
    · obtain ⟨m1, m2, m3, m4⟩ := modify_components st s
        (fun a => { a with balance := a.balance - amount })
      obtain ⟨n1, n2, n3, n4⟩ := modify_components (modifyAccount st s
        (fun a => { a with balance := a.balance - amount })) d
        (fun a => { a with balance := a.balance + amount })
      exact ⟨n1.trans m1, n2.trans m2, n3.trans m3, n4.trans m4⟩
  · have herr : transfer st author s d amount = .error "Cannot perform transfer." := by
      unfold transfer; simp only [hs, hd]; rw [if_neg hc]
    have hprop : ¬(0 < amount ∧ 0 ≤ A.balance - amount ∧
        A.frozen = false ∧ B.frozen = false) := fun hp => hc (hcan.mpr hp)
    rw [herr]
    exact ⟨⟨fun ⟨st1, h1⟩ => Except.noConfusion h1, fun hp => absurd hp hprop⟩,
      fun st1 h1 => Except.noConfusion h1,
      fun _ => ⟨rfl, by simp [applyOp, herr]⟩⟩

/-- Witness for `transfer_meets_spec`: a concrete successful transfer of 5
from the sender to the receiver in the recurring-transfer example state. -/
theorem transfer_meets_spec_witness :
    getData exampleRecurringState 1 = some
      { uuid := "u1", balance := 20, frozen := false, public := false,
        auth := .citizen, publicKeys := [], proxies := [] } ∧
    (∃ st1, transfer exampleRecurringState "sender" 1 2 5 = .ok st1) := by
  have h := transfer_meets_spec exampleRecurringState "sender" 1 2 5
    { uuid := "u1", balance := 20, frozen := false, public := false,
      auth := .citizen, publicKeys := [], proxies := [] }
    { uuid := "u2", balance := 20, frozen := false, public := false,
      auth := .citizen, publicKeys := [], proxies := [] }
    (by with_unfolding_all rfl) (by with_unfolding_all rfl) (by decide)
  exact ⟨by with_unfolding_all rfl,
    h.1.mpr ⟨by norm_num, by norm_num, rfl, rfl⟩⟩

/-- C10.  An account returned by `open_account(id)` for an id with no
existing account starts with balance 0, frozen = False, public = False,
authorization CITIZEN, no public keys and no proxies; its uuid is the
supplied `account_uuid` when one is given and the freshly drawn uuid
otherwise. -/
theorem open_account_spec (st : ServerState) (id : String)
    (uuidOpt : Option String) (fresh : String)
    (h : hasAccount st id = false) :
    ∃ st1, openAccount st id uuidOpt fresh = .ok (st1, st.accountData.length) ∧
      ∃ acct, getData st1 st.accountData.length = some acct ∧
        acct.balance = 0 ∧ acct.frozen = false ∧ acct.public = false ∧
        acct.auth = .citizen ∧ acct.publicKeys = [] ∧ acct.proxies = [] ∧
        (∀ u, uuidOpt = some u → acct.uuid = u) ∧
        (uuidOpt = none → acct.uuid = fresh) := by
  refine ⟨{ st with
      accounts := assocInsert st.accounts id st.accountData.length
      accountData := st.accountData ++ [mkInMemoryAccount uuidOpt fresh]
      invAccounts := st.invAccounts ++ [(st.accountData.length, [id])] },
    ?_, mkInMemoryAccount uuidOpt fresh, ?_, rfl, rfl, rfl, rfl, rfl, rfl,
    ?_, ?_⟩
  · unfold openAccount
    rw [h]
    simp
  · show (st.accountData ++ [mkInMemoryAccount uuidOpt fresh])[st.accountData.length]? =
      some (mkInMemoryAccount uuidOpt fresh)
    exact List.getElem?_concat_length _ _
  · intro u hu
    simp [mkInMemoryAccount, hu]
  · intro hu
    simp [mkInMemoryAccount, hu]

/-- Witness for `open_account_spec`: opening a fresh id on the initial
state. -/
theorem open_account_spec_witness :
    hasAccount initialState "alice" = false ∧
    ∃ st1, openAccount initialState "alice" none "u1" = .ok (st1, 1) := by
  refine ⟨by with_unfolding_all rfl, ?_⟩
  obtain ⟨st1, h1, -⟩ := open_account_spec initialState "alice" none "u1"
    (by with_unfolding_all rfl)
  exact ⟨st1, h1⟩

theorem modifyAccount_noop (st : ServerState) (i : Nat) (f : Account → Account)
    (v : Account) (h : getData st i = some v) (hf : f v = v) :
    modifyAccount st i f = st := by
  unfold getData at h
  unfold modifyAccount
  simp only [h, hf]
  rw [set_same _ _ _ h]

theorem setInsert_mem (l : List Nat) (x : Nat) : x ∈ setInsert l x := by
  unfold setInsert
  by_cases h : x ∈ l
  · simpa [h]
  · simp [h]

theorem setInsert_already (l : List Nat) (x : Nat) (h : x ∈ l) :
    setInsert l x = l := by
  simp [setInsert, h]

/-- C9.  `add_proxy` is idempotent: adding a proxy relation that already
exists (in particular, re-adding one just added) leaves the entire server
state unchanged, so registering the same relation three times equals
registering it once; `remove_proxy` on an absent relation does not fail,
leaves the state unchanged and returns `True`, while removing a present
relation returns `False` — the two results are distinguishable. -/
theorem proxy_spec (st : ServerState) (a p : Nat) (P : Account)
    (hp : getData st p = some P) :
    (addProxy (addProxy st a p) a p = addProxy st a p) ∧
    (addProxy (addProxy (addProxy st a p) a p) a p = addProxy st a p) ∧
    (a ∉ P.proxies → removeProxy st a p = (st, true)) ∧
    (a ∈ P.proxies → (removeProxy st a p).2 = false) := by
  have hidem : addProxy (addProxy st a p) a p = addProxy st a p := by
    have h1 : getData (addProxy st a p) p =
        some { P with proxies := setInsert P.proxies a } :=
      getData_modify_self st p _ P hp
    refine modifyAccount_noop (addProxy st a p) p _ _ h1 ?_
    simp only
    rw [setInsert_already _ a (setInsert_mem P.proxies a)]
  refine ⟨hidem, by rw [hidem, hidem], ?_, ?_⟩
  · intro hab
    unfold removeProxy
    simp only [hp]
    simp [hab]
  · intro hab
    unfold removeProxy
    simp only [hp]
    simp [hab]

/-- Witness for `proxy_spec`: the initial state's government account has no
proxies, so removing a relation reports absence and adding twice equals
adding once. -/
theorem proxy_spec_witness :
    getData initialState 0 = some
      { uuid := "gov-uuid", balance := 0, frozen := false, public := false,
        auth := .developer, publicKeys := [], proxies := [] } ∧
    removeProxy initialState 1 0 = (initialState, true) := by
  have h := proxy_spec initialState 1 0
    { uuid := "gov-uuid", balance := 0, frozen := false, public := false,
      auth := .developer, publicKeys := [], proxies := [] }
    (by with_unfolding_all rfl)
  exact ⟨by with_unfolding_all rfl, h.2.2.1 (by decide)⟩

/-- C5.  Evaluation of the scheduler at the failing input: a recurring
transfer of total 20 over 2 ticks (per-tick instalment 10) with remaining
amount 5 — strictly between 0 and the instalment — and a source balance of
85.  The claim (and the spec) say the final partial installment applies the
remaining 5; the code instead binds the local `remaining` to
`transfer.get_total_amount()` and moves the total 20, leaving the source at
65 instead of 80 and driving `remaining_amount` to -15. -/
theorem final_installment_moves_total :
    (assocLookup partialInstallmentState.recurring "t1").map
        (·.remainingAmount) = some 5 ∧
    (getData partialInstallmentState 1).map (·.balance) = some 85 ∧
    (getData (notifyTickElapsed partialInstallmentState) 1).map (·.balance) =
      some 65 ∧
    (getData (notifyTickElapsed partialInstallmentState) 2).map (·.balance) =
      some 35 ∧
    ((85 : ℚ) - 65 = 20 ∧ (20 : ℚ) ≠ 5) := by
  refine ⟨?_, ?_, ?_, ?_, by norm_num, by norm_num⟩ <;> with_unfolding_all rfl

/-- C6.  Evaluation of the tax engine at the worked example: one account
holding 2000 units and brackets `[0,500]` at 10, `[500,1000]` at 20,
`[1000,2000]` at 50.  The code computes every bracket's tax from the same
fixed balance of 2000 and collects 50 + 100 + 500 = 650, leaving the account
at 1350 and the government account at 650 — not the 1425 and 575 stated by
the claim (and asserted by the repository's own `test_tax`). -/
theorem tax_example_evaluation :
    getAccountTax exampleTaxState 1 = 650 ∧
    (taxCollect 0 exampleTaxState).2 = .ok 650 ∧
    (getData (taxCollect 0 exampleTaxState).1 1).map (·.balance) = some 1350 ∧
    (getData (taxCollect 0 exampleTaxState).1 0).map (·.balance) = some 650 ∧
    ((1350 : ℚ) ≠ 1425 ∧ (650 : ℚ) ≠ 575) := by
  refine ⟨?_, ?_, ?_, ?_, by norm_num, by norm_num⟩ <;> with_unfolding_all rfl

/-- Counterexample to C7 as stated: in `frozenTaxState` the account `alice`
(frozen, owing 200) sorts before `bob` (unfrozen, owing 200).  The claim says
alice's failure only skips alice and the pass still collects from bob; the
code raises out of `TaxMan.tax`, so the pass aborts and bob's balance is
untouched. -/
theorem tax_pass_abort_counterexample :
    getAccountTax frozenTaxState 1 = 200 ∧
    getAccountTax frozenTaxState 2 = 200 ∧
    (taxCollect 0 frozenTaxState).2 = .error "Cannot perform transfer." ∧
    (taxCollect 0 frozenTaxState).1 = frozenTaxState ∧
    (getData (taxCollect 0 frozenTaxState).1 2).map (·.balance) = some 2000 := by
  refine ⟨?_, ?_, ?_, ?_, ?_⟩ <;> with_unfolding_all rfl

/-- Counterexample to C8 as stated: after exactly 10 ticks the sender has
paid 20 and the receiver received 20, but the recurring transfer is still
registered (with remaining amount 0) — it only disappears on the following
tick. -/
theorem recurring_still_listed_after_ten_ticks :
    (getData (tickN 10 exampleRecurringState) 1).map (·.balance) = some 0 ∧
    (getData (tickN 10 exampleRecurringState) 2).map (·.balance) = some 40 ∧
    (assocLookup (tickN 10 exampleRecurringState).recurring "t1").isSome = true := by
  refine ⟨?_, ?_, ?_⟩ <;> with_unfolding_all rfl

/-- C8 as amended: after 10 ticks the sender decreased by 20 (20 to 0), the
receiver increased by 20 (20 to 40) and the transfer's remaining amount is 0,
but the transfer is removed from the active list only by the 11th tick pass
(whose first branch collects transfers with `remaining_amount <= 0`). -/
theorem recurring_example_amended :
    (getData exampleRecurringState 1).map (·.balance) = some 20 ∧
    (getData exampleRecurringState 2).map (·.balance) = some 20 ∧
    (getData (tickN 10 exampleRecurringState) 1).map (·.balance) = some 0 ∧
    (getData (tickN 10 exampleRecurringState) 2).map (·.balance) = some 40 ∧
    (assocLookup (tickN 10 exampleRecurringState).recurring "t1").map
      (·.remainingAmount) = some 0 ∧
    assocLookup (tickN 11 exampleRecurringState).recurring "t1" = none ∧
    (getData (tickN 11 exampleRecurringState) 1).map (·.balance) = some 0 ∧
    (getData (tickN 11 exampleRecurringState) 2).map (·.balance) = some 40 := by
  refine ⟨?_, ?_, ?_, ?_, ?_, ?_, ?_, ?_⟩ <;> with_unfolding_all rfl

/-- Counterexample to C2 as stated: the state reached by opening an account
and then calling `remove_funds` for 10 units is reachable and holds an
account with balance -10 (`remove_funds` performs no balance or positivity
check). -/
theorem negative_balance_reachable :
    ¬ (∀ st, Reachable st → allNonneg st) := by
  intro h
  have hr : Reachable overdrawnState :=
    Reachable.step _ (.removeFundsOp 1 10)
      (Reachable.step _ (.openAcc "alice" none "u1") Reachable.init)
  obtain ⟨a, ha, hb⟩ : ∃ a ∈ overdrawnState.accountData, a.balance = -10 := by
    with_unfolding_all decide
  have := h overdrawnState hr a ha
  rw [hb] at this
  norm_num at this

/-- Counterexample to C4 as stated: a tax collection with total revenue 10
leaves the total money supply at 100, unchanged — tax collection transfers
balances to the government account instead of changing the supply by the
amount involved. -/
theorem tax_preserves_supply_counterexample :
    (taxCollect 0 supplyTaxState).2 = .ok 10 ∧
    totalSupply supplyTaxState = 100 ∧
    totalSupply (taxCollect 0 supplyTaxState).1 = 100 ∧
    (10 : ℚ) ≠ 0 := by
  refine ⟨?_, ?_, ?_, by norm_num⟩ <;> with_unfolding_all rfl

theorem taxLoop_cons (gov : Nat) (st : ServerState) (a : Nat)
    (rest : List Nat) (total : ℚ) :
    taxLoop gov st (a :: rest) total =
      if getAccountTax st a ≠ 0 then
        match transfer st "@government" a gov (getAccountTax st a) with
        | .ok st1 => taxLoop gov st1 rest (total + getAccountTax st a)
        | .error e => (st, .error e)
      else taxLoop gov st rest total := rfl

theorem taxLoop_append_ok (gov : Nat) (st st1 : ServerState)
    (xs ys : List Nat) (total collected : ℚ)
    (h : taxLoop gov st xs total = (st1, .ok collected)) :
    taxLoop gov st (xs ++ ys) total = taxLoop gov st1 ys collected := by
  induction xs generalizing st total with
  | nil =>
      unfold taxLoop at h
      injection h with h1 h2
      subst h1
      injection h2 with h2
      subst h2
      rfl
  | cons a rest ih =>
      rw [List.cons_append, taxLoop_cons]
      rw [taxLoop_cons] at h
      by_cases hdue : getAccountTax st a ≠ 0
      · simp only [if_pos hdue] at h ⊢
        cases htr : transfer st "@government" a gov (getAccountTax st a) with
        | ok st2 =>
            rw [htr] at h
            exact ih st2 _ h
        | error e =>
            rw [htr] at h
            injection h with h1 h2
            exact absurd h2 (fun hx => Except.noConfusion hx)
      · simp only [if_neg hdue] at h ⊢
        exact ih st total h

/-- C7 as amended: during a tax pass, one account's collection failure stops
the pass at that account instead of skipping only it — the accounts already
collected keep their deductions (no rollback) and neither the failing
account nor any account after it in the pass order is collected: the pass
returns the state as it stood just before the failing account, together with
the typed failure. -/
theorem tax_failure_aborts_pass (gov : Nat) (st st1 : ServerState)
    (xs ys : List Nat) (a : Nat) (collected : ℚ) (e : String)
    (hacc : listAccounts st = xs ++ a :: ys)
    (hxs : taxLoop gov st xs 0 = (st1, .ok collected))
    (hdue : getAccountTax st1 a ≠ 0)
    (hfail : transfer st1 "@government" a gov (getAccountTax st1 a) = .error e) :
    taxCollect gov st = (st1, .error e) := by
  unfold taxCollect
  rw [hacc, taxLoop_append_ok gov st st1 xs (a :: ys) 0 collected hxs,
    taxLoop_cons]
  simp only [if_pos hdue, hfail]

/-- Witness for `tax_failure_aborts_pass`: in `frozenTaxState` the pass
order is government, alice (frozen), bob; nothing is due before alice,
alice's collection fails, and the pass returns the unchanged state with the
typed failure. -/
theorem tax_failure_aborts_pass_witness :
    taxCollect 0 frozenTaxState = (frozenTaxState, .error "Cannot perform transfer.") :=
  tax_failure_aborts_pass 0 frozenTaxState frozenTaxState [0] [2] 1 0
    "Cannot perform transfer."
    (by with_unfolding_all rfl)
    (by with_unfolding_all rfl)
    (by with_unfolding_all decide)
    (by with_unfolding_all rfl)

theorem chainDigest_zero (H : List Nat → List String → List Nat)
    (prev : List Nat) (entries : List LedgerEntry) :
    chainDigest H prev entries 0 = prev := rfl

theorem chainDigest_succ_cons (H : List Nat → List String → List Nat)
    (prev : List Nat) (e : LedgerEntry) (rest : List LedgerEntry) (i : Nat) :
    chainDigest H prev (e :: rest) (i + 1) =
      chainDigest H (H prev e.body) rest i := by
  unfold chainDigest
  rw [List.take_succ_cons]
  rfl

theorem checkLedger_ok_iff (H : List Nat → List String → List Nat)
    (difficulty : Nat) (prev : List Nat) (entries : List LedgerEntry) :
    checkLedger H difficulty prev entries = .ok () ↔
      ∀ i e, entries[i]? = some e →
        (H (chainDigest H prev entries i) e.body = e.storedDigest ∧
          hasLeadingZeros e.storedDigest difficulty = true) := by
  induction entries generalizing prev with
  | nil => simp [checkLedger]
  | cons e rest ih =>
      unfold checkLedger
      by_cases h1 : H prev e.body = e.storedDigest
      · rw [if_neg (show ¬ H prev e.body ≠ e.storedDigest from by simp [h1])]
        by_cases h2 : hasLeadingZeros e.storedDigest difficulty = true
        · rw [if_neg (show ¬ (!hasLeadingZeros e.storedDigest difficulty) = true
            from by simp [h2])]
          rw [ih (H prev e.body)]
          constructor
          · intro hall i e' he'
            cases i with
            | zero =>
                simp only [List.getElem?_cons_zero] at he'
                injection he' with he'
                subst he'
                exact ⟨by rw [chainDigest_zero]; exact h1, h2⟩
            | succ j =>
                simp only [List.getElem?_cons_succ] at he'
                rw [chainDigest_succ_cons]
                exact hall j e' he'
          · intro hall j e' he'
            have := hall (j + 1) e' (by simpa using he')
            rwa [chainDigest_succ_cons] at this
        · rw [if_pos (show (!hasLeadingZeros e.storedDigest difficulty) = true
            from by rw [Bool.not_eq_true', Bool.eq_false_iff]; exact h2)]
          constructor
          · intro hx
            exact Except.noConfusion hx
          · intro hall
            have := (hall 0 e (by simp)).2
            exact absurd this h2
      · rw [if_pos h1]
        constructor
        · intro hx
          exact Except.noConfusion hx
        · intro hall
          have := (hall 0 e (by simp)).1
          rw [chainDigest_zero] at this
          exact absurd this h1

theorem not_ok_is_error (r : Except String Unit) (h : r ≠ .ok ()) :
    ∃ msg, r = .error msg := by
  cases r with
  | ok u => cases u; exact absurd rfl h
  | error msg => exact ⟨msg, rfl⟩

theorem lzb_cons_zero (d : List Nat) :
    leadingZeroBits (0 :: d) = 4 + leadingZeroBits d := by
  unfold leadingZeroBits
  rw [show hexBits (0 :: d) = hexDigitBits 0 ++ hexBits d from rfl]
  simp [hexDigitBits, List.takeWhile_cons]
  omega

theorem lzb_cons_nonzero (x : Nat) (d : List Nat) (h1 : 1 ≤ x) (h2 : x < 16) :
    leadingZeroBits (x :: d) =
      (if x < 2 then 3 else if x < 4 then 2 else if x < 8 then 1 else 0) := by
  unfold leadingZeroBits
  rw [show hexBits (x :: d) = hexDigitBits x ++ hexBits d from rfl]
  interval_cases x <;> simp [hexDigitBits, List.takeWhile_cons]

theorem hlz_cons_zero_ge4 (d : List Nat) (n : Nat) (hn : 4 ≤ n) :
    hasLeadingZeros (0 :: d) n = hasLeadingZeros d (n - 4) := by
  unfold hasLeadingZeros
  obtain ⟨k, hk⟩ : ∃ k, n / 4 = k + 1 := ⟨n / 4 - 1, by omega⟩
  have hk2 : (n - 4) / 4 = k := by omega
  have hr : (n - 4) % 4 = n % 4 := by omega
  simp only [hk, hk2, hr, List.take_succ_cons, List.length_cons, List.any_cons,
    List.getElem?_cons_succ, Nat.add_lt_add_iff_right]
  have hz : (decide ((0 : Nat) ≠ 0)) = false := by decide
  rw [hz]
  simp only [Bool.false_or]

theorem hlz_cons_nonzero_ge4 (x : Nat) (d : List Nat) (n : Nat)
    (hx : x ≠ 0) (hn : 4 ≤ n) :
    hasLeadingZeros (x :: d) n = false := by
  unfold hasLeadingZeros
  obtain ⟨k, hk⟩ : ∃ k, n / 4 = k + 1 := ⟨n / 4 - 1, by omega⟩
  simp only [hk, List.take_succ_cons, List.length_cons, List.any_cons,
    List.getElem?_cons_succ]
  by_cases hlen : (List.take k d).length + 1 < k + 1
  · rw [if_pos hlen]
  · rw [if_neg hlen]
    rw [if_pos (by simp [hx])]

theorem hlz_nil_iff (n : Nat) : hasLeadingZeros [] n = true ↔ n = 0 := by
  cases n with
  | zero => simp [hasLeadingZeros]
  | succ m =>
      unfold hasLeadingZeros
      by_cases hq : (m + 1) / 4 = 0
      · have hr : (m + 1) % 4 ≠ 0 := by omega
        simp [hq, hr]
      · have h1 : (List.take ((m + 1) / 4) ([] : List Nat)).length < (m + 1) / 4 := by
          simp [List.length_take]
          omega
        rw [if_pos h1]
        simp

theorem hlz_le_iff (d : List Nat) (n : Nat) (hd : ∀ x ∈ d, x < 16) :
    hasLeadingZeros d n = true ↔ n ≤ leadingZeroBits d := by
  induction d generalizing n with
  | nil =>
      rw [hlz_nil_iff]
      unfold leadingZeroBits
      rw [show hexBits [] = [] from rfl]
      simp
  | cons x rest ih =>
      have hx := hd x (List.mem_cons_self x rest)
      have hrest : ∀ y ∈ rest, y < 16 := fun y hy => hd y (List.mem_cons_of_mem x hy)
      by_cases hx0 : x = 0
      · subst hx0
        rw [lzb_cons_zero]
        by_cases hn : 4 ≤ n
        · rw [hlz_cons_zero_ge4 rest n hn, ih (n - 4) hrest]
          omega
        · have hlt : n < 4 := by omega
          interval_cases n
          · rw [show hasLeadingZeros (0 :: rest) 0 = true from by simp [hasLeadingZeros]]
            simp
          · rw [show hasLeadingZeros (0 :: rest) 1 = true from by simp [hasLeadingZeros]]
            simp
            omega
          · rw [show hasLeadingZeros (0 :: rest) 2 = true from by simp [hasLeadingZeros]]
            simp
            omega
          · rw [show hasLeadingZeros (0 :: rest) 3 = true from by simp [hasLeadingZeros]]
            simp
            omega
      · rw [lzb_cons_nonzero x rest (by omega) hx]
        by_cases hn : 4 ≤ n
        · rw [hlz_cons_nonzero_ge4 x rest n hx0 hn]
          simp only [Bool.false_eq_true, false_iff]
          split_ifs <;> omega
        · have hlt : n < 4 := by omega
          interval_cases n
          · rw [show hasLeadingZeros (x :: rest) 0 = true from by simp [hasLeadingZeros]]
            simp
          · rw [show hasLeadingZeros (x :: rest) 1 = decide (x < 8) from by
              simp [hasLeadingZeros]]
            simp only [decide_eq_true_iff]
            split_ifs <;> omega
          · rw [show hasLeadingZeros (x :: rest) 2 = decide (x < 4) from by
              simp [hasLeadingZeros]]
            simp only [decide_eq_true_iff]
            split_ifs <;> omega
          · rw [show hasLeadingZeros (x :: rest) 3 = decide (x < 2) from by
              simp [hasLeadingZeros]]
            simp only [decide_eq_true_iff]
            split_ifs <;> omega

/-- C3.  Loading a ledger verifies every entry against the running chain
digest: the load succeeds exactly when every entry's stored digest equals
the digest recomputed from the running chain digest and the entry's fields
and passes the difficulty check; if any entry fails either check the load
returns an error (the server constructor raises and the server does not
start); consequently, replacing any historical entry by a different one —
either its stored digest changed, or its fields changed in a way the hash
function distinguishes — makes the next load fail.  The difficulty check is
bit-granular: for a digest of hex digit values it passes exactly when the
digest has at least `difficulty` leading zero bits. -/
theorem ledger_load_integrity (H : List Nat → List String → List Nat)
    (difficulty : Nat) (prev : List Nat) (entries : List LedgerEntry) :
    (checkLedger H difficulty prev entries = .ok () ↔
      ∀ i e, entries[i]? = some e →
        (H (chainDigest H prev entries i) e.body = e.storedDigest ∧
          hasLeadingZeros e.storedDigest difficulty = true)) ∧
    (∀ i e, entries[i]? = some e →
      (H (chainDigest H prev entries i) e.body ≠ e.storedDigest ∨
        hasLeadingZeros e.storedDigest difficulty = false) →
      ∃ msg, checkLedger H difficulty prev entries = .error msg) ∧
    (checkLedger H difficulty prev entries = .ok () →
      ∀ i e e', entries[i]? = some e →
        ((e'.body = e.body ∧ e'.storedDigest ≠ e.storedDigest) ∨
          (e'.storedDigest = e.storedDigest ∧
            H (chainDigest H prev entries i) e'.body ≠
              H (chainDigest H prev entries i) e.body)) →
        ∃ msg, checkLedger H difficulty prev (entries.set i e') = .error msg) ∧
    (∀ dg : List Nat, (∀ x ∈ dg, x < 16) →
      (hasLeadingZeros dg difficulty = true ↔ difficulty ≤ leadingZeroBits dg)) := by
  refine ⟨checkLedger_ok_iff H difficulty prev entries, ?_, ?_,
    fun dg hdg => hlz_le_iff dg difficulty hdg⟩
  · intro i e he hbad
    refine not_ok_is_error _ (fun hok => ?_)
    obtain ⟨hdig, hzero⟩ := (checkLedger_ok_iff H difficulty prev entries).mp hok i e he
    cases hbad with
    | inl h => exact h hdig
    | inr h => rw [hzero] at h; exact Bool.noConfusion h
  · intro hok i e e' he hmut
    have hvalid := (checkLedger_ok_iff H difficulty prev entries).mp hok i e he
    have hlen : i < entries.length := by
      by_contra hc
      rw [List.getElem?_eq_none (Nat.le_of_not_lt hc)] at he
      exact Option.noConfusion he
    have hset : (entries.set i e')[i]? = some e' := by
      simp [List.getElem?_set, hlen]
    have hchain : chainDigest H prev (entries.set i e') i =
        chainDigest H prev entries i := by
      unfold chainDigest
      rw [take_set]
    refine not_ok_is_error _ (fun hok' => ?_)
    obtain ⟨hdig', _⟩ :=
      (checkLedger_ok_iff H difficulty prev (entries.set i e')).mp hok' i e' hset
    rw [hchain] at hdig'
    cases hmut with
    | inl h =>
        rw [h.1, hvalid.1] at hdig'
        exact h.2 hdig'.symm
    | inr h =>
        have hcontr : H (chainDigest H prev entries i) e'.body =
            H (chainDigest H prev entries i) e.body := by
          rw [hdig', h.1, ← hvalid.1]
        exact h.2 hcontr

/-- Witness for `ledger_load_integrity`: the two-entry toy ledger is valid
for `toyHash` at difficulty 4, flipping the second entry's stored digest
makes the load fail, and the difficulty check on the digest `[0, 4]` is the
bit-level statement that it has at least 4 leading zero bits. -/
theorem ledger_load_integrity_witness :
    checkLedger toyHash 4 [] toyLedger = .ok () ∧
    (∃ msg, checkLedger toyHash 4 []
      (toyLedger.set 1 { storedDigest := [1, 15], body := ["s2", "124.0", "tick"] }) =
        .error msg) ∧
    (hasLeadingZeros [0, 4] 4 = true ↔ 4 ≤ leadingZeroBits [0, 4]) := by
  have h := ledger_load_integrity toyHash 4 [] toyLedger
  have hok : checkLedger toyHash 4 [] toyLedger = .ok () := by
    with_unfolding_all rfl
  refine ⟨hok, h.2.2.1 hok 1
    { storedDigest := [0, 15], body := ["s2", "124.0", "tick"] }
    { storedDigest := [1, 15], body := ["s2", "124.0", "tick"] }
    (by with_unfolding_all rfl) (Or.inl ⟨rfl, by decide⟩),
    h.2.2.2 [0, 4] (by decide)⟩

/-! Non-negativity preservation lemmas for the guarded reachability claim. -/

theorem allNonneg_modify (st : ServerState) (i : Nat) (f : Account → Account)
    (h : allNonneg st)
    (hf : ∀ a, getData st i = some a → 0 ≤ a.balance → 0 ≤ (f a).balance) :
    allNonneg (modifyAccount st i f) := by
  unfold modifyAccount
  cases hx : st.accountData[i]? with
  | none => exact h
  | some a =>
      intro b hb
      rcases List.mem_or_eq_of_mem_set hb with h1 | h1
      · exact h b h1
      · subst h1
        exact hf a hx (h a (List.getElem?_mem hx))

theorem allNonneg_modify_keep (st : ServerState) (i : Nat)
    (f : Account → Account) (h : allNonneg st)
    (hf : ∀ a, (f a).balance = a.balance) :
    allNonneg (modifyAccount st i f) :=
  allNonneg_modify st i f h (fun a _ ha => by rw [hf a]; exact ha)

theorem transfer_ok_nonneg (st st1 : ServerState) (author : String)
    (s d : Nat) (amount : ℚ)
    (htr : transfer st author s d amount = .ok st1) (h : allNonneg st) :
    allNonneg st1 := by
  unfold transfer at htr
  cases hs : getData st s with
  | none => simp only [hs] at htr; exact Except.noConfusion htr
  | some src =>
      cases hd : getData st d with
      | none => simp only [hs, hd] at htr; exact Except.noConfusion htr
      | some dst =>
          simp only [hs, hd] at htr
          by_cases hc : canTransfer src dst amount = true
          · rw [if_pos hc] at htr
            injection htr with htr
            subst htr
            obtain ⟨hpos, hbal, -, -⟩ := (canTransfer_iff src dst amount).mp hc
            refine allNonneg_modify _ d _ (allNonneg_modify st s _ h ?_) ?_
            · intro a ha _
              rw [hs] at ha
              injection ha with ha
              subst ha
              exact hbal
            · intro a _ ha
              have := le_of_lt hpos
              simp only
              linarith
          · rw [if_neg hc] at htr
            exact Except.noConfusion htr

theorem performRecurring_nonneg (st st1 : ServerState) (tid : String)
    (amount : ℚ)
    (hp : performRecurringTransfer st tid amount = .ok st1)
    (h : allNonneg st) : allNonneg st1 := by
  unfold performRecurringTransfer at hp
  cases ht : assocLookup st.recurring tid with
  | none => simp only [ht] at hp; exact Except.noConfusion hp
  | some t =>
      simp only [ht] at hp
      cases htr : transfer st t.author t.source t.destination amount with
      | ok st2 =>
          rw [htr] at hp
          simp only [Except.map] at hp
          injection hp with hp
          intro b hb
          rw [← hp] at hb
          exact transfer_ok_nonneg st st2 t.author t.source t.destination
            amount htr h b hb
      | error e =>
          rw [htr] at hp
          simp only [Except.map] at hp
          exact Except.noConfusion hp

theorem tickOne_nonneg (st : ServerState) (tid : String) (h : allNonneg st) :
    allNonneg (tickOne st tid).1 := by
  unfold tickOne
  cases ht : assocLookup st.recurring tid with
  | none => exact h
  | some t =>
      by_cases h0 : t.remainingAmount ≤ 0
      · simp only [if_pos h0]; exact h
      · simp only [if_neg h0]
        by_cases h1 : t.remainingAmount ≥ t.totalAmount / (t.tickCount : ℚ)
        · simp only [if_pos h1]
          by_cases h2 : canTransferIn st t.source t.destination
              (t.totalAmount / (t.tickCount : ℚ)) = true
          · simp only [if_pos h2]
            cases hp : performRecurringTransfer st tid
                (t.totalAmount / (t.tickCount : ℚ)) with
            | ok st2 =>
                simp only [hp, Except.toOption, Option.getD]
                exact performRecurring_nonneg st st2 tid _ hp h
            | error e =>
                simp only [hp, Except.toOption, Option.getD]
                exact h
          · simp only [if_neg h2]; exact h
        · simp only [if_neg h1]
          by_cases h2 : canTransferIn st t.source t.destination t.totalAmount = true
          · simp only [if_pos h2]
            cases hp : performRecurringTransfer st tid t.totalAmount with
            | ok st2 =>
                simp only [hp, Except.toOption, Option.getD]
                exact performRecurring_nonneg st st2 tid _ hp h
            | error e =>
                simp only [hp, Except.toOption, Option.getD]
                exact h
          · simp only [if_neg h2]; exact h

theorem tickFold_nonneg (ids : List String) (acc : ServerState × List String)
    (h : allNonneg acc.1) :
    allNonneg (ids.foldl (fun (acc : ServerState × List String) tid =>
      let r := tickOne acc.1 tid
      (r.1, if r.2 then acc.2 ++ [tid] else acc.2)) acc).1 := by
  induction ids generalizing acc with
  | nil => exact h
  | cons tid rest ih =>
      rw [List.foldl_cons]
      exact ih _ (tickOne_nonneg acc.1 tid h)

theorem notifyTick_nonneg (st : ServerState) (h : allNonneg st) :
    allNonneg (notifyTickElapsed st) := by
  unfold notifyTickElapsed
  exact tickFold_nonneg _ (st, []) h

theorem taxLoop_nonneg (gov : Nat) (st : ServerState) (accts : List Nat)
    (total : ℚ) (h : allNonneg st) :
    allNonneg (taxLoop gov st accts total).1 := by
  induction accts generalizing st total with
  | nil => exact h
  | cons a rest ih =>
      rw [taxLoop_cons]
      by_cases hdue : getAccountTax st a ≠ 0
      · rw [if_pos hdue]
        cases htr : transfer st "@government" a gov (getAccountTax st a) with
        | ok st1 =>
            exact ih st1 _ (transfer_ok_nonneg st st1 _ a gov _ htr h)
        | error e => exact h
      · rw [if_neg hdue]
        exact ih st total h

theorem applyOp_nonneg (st : ServerState) (op : Op) (hgood : GoodOp op)
    (h : allNonneg st) : allNonneg (applyOp st op) := by
  cases op with
  | openAcc id uuidOpt fresh =>
      show allNonneg (match openAccount st id uuidOpt fresh with
        | .ok r => r.1 | .error _ => st)
      unfold openAccount
      by_cases hex : hasAccount st id = true
      · simp only [hex, if_true]; exact h
      · simp only [hex, if_false]
        intro b hb
        rcases List.mem_append.mp hb with h1 | h1
        · exact h b h1
        · rw [List.mem_singleton] at h1
          subst h1
          norm_num [mkInMemoryAccount]
  | addAlias objId aliasId => exact fun b hb => h b hb
  | transferOp author source destination amount =>
      show allNonneg (match transfer st author source destination amount with
        | .ok st1 => st1 | .error _ => st)
      cases htr : transfer st author source destination amount with
      | ok st1 => exact transfer_ok_nonneg st st1 author source destination amount htr h
      | error e => exact h
  | printMoneyOp objId amount =>
      refine allNonneg_modify st objId _ h (fun a _ ha => ?_)
      have hamt : 0 ≤ amount := hgood
      simp only
      linarith
  | removeFundsOp objId amount => exact absurd hgood (fun hf => hf)
  | setFrozenOp objId b => exact allNonneg_modify_keep st objId _ h (fun a => rfl)
  | authorizeOp objId lvl => exact allNonneg_modify_keep st objId _ h (fun a => rfl)
  | markPublicOp objId b => exact allNonneg_modify_keep st objId _ h (fun a => rfl)
  | addPublicKeyOp objId key => exact allNonneg_modify_keep st objId _ h (fun a => rfl)
  | addProxyOp accountObj proxiedObj =>
      exact allNonneg_modify_keep st proxiedObj _ h (fun a => rfl)
  | removeProxyOp accountObj proxiedObj =>
      show allNonneg (removeProxy st accountObj proxiedObj).1
      unfold removeProxy
      cases hp : getData st proxiedObj with
      | none => exact h
      | some P =>
          by_cases hin : accountObj ∈ P.proxies
          · simp only [hin, if_true]
            exact allNonneg_modify_keep st proxiedObj _ h (fun a => rfl)
          · simp only [hin, if_false]
            exact h
  | createRecurringOp author source destination total ticks tid =>
      exact fun b hb => h b hb
  | performRecurringOp tid amount =>
      show allNonneg (match performRecurringTransfer st tid amount with
        | .ok st1 => st1 | .error _ => st)
      cases hp : performRecurringTransfer st tid amount with
      | ok st1 => exact performRecurring_nonneg st st1 tid amount hp h
      | error e => exact h
  | tickOp => exact notifyTick_nonneg st h
  | addTaxBracketOp start stop rate name => exact fun b hb => h b hb
  | removeTaxBracketOp name => exact fun b hb => h b hb
  | forceTaxOp => exact taxLoop_nonneg 0 st (listAccounts st) 0 h

/-- C2 as amended: for every state reachable from the initial server state
by state-machine operations that exclude `remove_funds` and restrict
`print_money` to non-negative amounts, no account balance is negative.  The
restriction is forced: the code performs no balance or positivity check in
either operation, so `remove_funds` (or a negative `print_money`) can drive
a balance negative. -/
theorem guarded_reachable_nonneg (st : ServerState)
    (h : ReachableGuarded st) : allNonneg st := by
  induction h with
  | init =>
      intro b hb
      rw [show initialState.accountData =
        [{ mkInMemoryAccount none "gov-uuid" with auth := .developer }] from rfl,
        List.mem_singleton] at hb
      subst hb
      norm_num [mkInMemoryAccount]
  | step st1 op hr hg ih => exact applyOp_nonneg st1 op hg ih

/-- Witness for `guarded_reachable_nonneg`: printing 5 units to the
government account reaches a state with all balances non-negative. -/
theorem guarded_reachable_nonneg_witness :
    allNonneg (applyOp initialState (.printMoneyOp 0 5)) :=
  guarded_reachable_nonneg _
    (ReachableGuarded.step initialState (.printMoneyOp 0 5)
      ReachableGuarded.init
      (show (0 : ℚ) ≤ 5 by norm_num))

/-! Total-supply lemmas for the conservation claim. -/

theorem sum_balance_set (l : List Account) (i : Nat) (b a : Account)
    (h : l[i]? = some a) :
    ((l.set i b).map (·.balance)).sum =
      (l.map (·.balance)).sum - a.balance + b.balance := by
  induction l generalizing i with
  | nil => simp at h
  | cons x xs ih =>
      cases i with
      | zero =>
          simp only [List.getElem?_cons_zero] at h
          injection h with h
          subst h
          simp only [List.set, List.map_cons, List.sum_cons]
          ring
      | succ j =>
          simp only [List.getElem?_cons_succ] at h
          simp only [List.set, List.map_cons, List.sum_cons, ih j h]
          ring

theorem totalSupply_modify (st : ServerState) (i : Nat) (f : Account → Account)
    (a : Account) (h : getData st i = some a) :
    totalSupply (modifyAccount st i f) =
      totalSupply st - a.balance + (f a).balance := by
  unfold getData at h
  unfold totalSupply modifyAccount
  rw [h]
  exact sum_balance_set st.accountData i (f a) a h

theorem totalSupply_modify_keep (st : ServerState) (i : Nat)
    (f : Account → Account) (hf : ∀ a, (f a).balance = a.balance) :
    totalSupply (modifyAccount st i f) = totalSupply st := by
  cases h : getData st i with
  | none =>
      unfold getData at h
      unfold totalSupply modifyAccount
      rw [h]
  | some a =>
      rw [totalSupply_modify st i f a h, hf a]
      ring

theorem modifyAccount_length (st : ServerState) (i : Nat)
    (f : Account → Account) :
    (modifyAccount st i f).accountData.length = st.accountData.length := by
  unfold modifyAccount
  cases st.accountData[i]? <;> simp

theorem transfer_ok_supply (st st1 : ServerState) (author : String)
    (s d : Nat) (amount : ℚ)
    (htr : transfer st author s d amount = .ok st1) :
    totalSupply st1 = totalSupply st := by
  unfold transfer at htr
  cases hs : getData st s with
  | none => simp only [hs] at htr; exact Except.noConfusion htr
  | some src =>
      cases hd : getData st d with
      | none => simp only [hs, hd] at htr; exact Except.noConfusion htr
      | some dst =>
          simp only [hs, hd] at htr
          by_cases hc : canTransfer src dst amount = true
          · rw [if_pos hc] at htr
            injection htr with htr
            subst htr
            set stA := modifyAccount st s
              (fun a => { a with balance := a.balance - amount }) with hstA
            have hA : totalSupply stA = totalSupply st - amount := by
              rw [hstA, totalSupply_modify st s _ src hs]
              simp only
              ring
            cases hx : getData stA d with
            | none =>
                exfalso
                unfold getData at hx hd
                rw [List.getElem?_eq_none_iff] at hx
                rw [hstA] at hx
                rw [modifyAccount_length] at hx
                have := List.getElem?_eq_none hx
                rw [this] at hd
                exact Option.noConfusion hd
            | some dst' =>
                rw [totalSupply_modify stA d _ dst' hx, hA]
                simp only
                ring
          · rw [if_neg hc] at htr
            exact Except.noConfusion htr

theorem performRecurring_supply (st st1 : ServerState) (tid : String)
    (amount : ℚ)
    (hp : performRecurringTransfer st tid amount = .ok st1) :
    totalSupply st1 = totalSupply st := by
  unfold performRecurringTransfer at hp
  cases ht : assocLookup st.recurring tid with
  | none => simp only [ht] at hp; exact Except.noConfusion hp
  | some t =>
      simp only [ht] at hp
      cases htr : transfer st t.author t.source t.destination amount with
      | ok st2 =>
          rw [htr] at hp
          simp only [Except.map] at hp
          injection hp with hp
          rw [← hp]
          exact transfer_ok_supply st st2 t.author t.source t.destination
            amount htr
      | error e =>
          rw [htr] at hp
          simp only [Except.map] at hp
          exact Except.noConfusion hp

theorem tickOne_supply (st : ServerState) (tid : String) :
    totalSupply (tickOne st tid).1 = totalSupply st := by
  unfold tickOne
  cases ht : assocLookup st.recurring tid with
  | none => rfl
  | some t =>
      by_cases h0 : t.remainingAmount ≤ 0
      · simp only [if_pos h0]
      · simp only [if_neg h0]
        by_cases h1 : t.remainingAmount ≥ t.totalAmount / (t.tickCount : ℚ)
        · simp only [if_pos h1]
          by_cases h2 : canTransferIn st t.source t.destination
              (t.totalAmount / (t.tickCount : ℚ)) = true
          · simp only [if_pos h2]
            cases hp : performRecurringTransfer st tid
                (t.totalAmount / (t.tickCount : ℚ)) with
            | ok st2 =>
                simp only [hp, Except.toOption, Option.getD]
                exact performRecurring_supply st st2 tid _ hp
            | error e =>
                simp only [hp, Except.toOption, Option.getD]
          · simp only [if_neg h2]
        · simp only [if_neg h1]
          by_cases h2 : canTransferIn st t.source t.destination t.totalAmount = true
          · simp only [if_pos h2]
            cases hp : performRecurringTransfer st tid t.totalAmount with
            | ok st2 =>
                simp only [hp, Except.toOption, Option.getD]
                exact performRecurring_supply st st2 tid _ hp
            | error e =>
                simp only [hp, Except.toOption, Option.getD]
          · simp only [if_neg h2]

theorem tickFold_supply (ids : List String) (acc : ServerState × List String) :
    totalSupply (ids.foldl (fun (acc : ServerState × List String) tid =>
      let r := tickOne acc.1 tid
      (r.1, if r.2 then acc.2 ++ [tid] else acc.2)) acc).1 = totalSupply acc.1 := by
  induction ids generalizing acc with
  | nil => rfl
  | cons tid rest ih =>
      rw [List.foldl_cons]
      rw [ih]
      exact tickOne_supply acc.1 tid

theorem notifyTick_supply (st : ServerState) :
    totalSupply (notifyTickElapsed st) = totalSupply st := by
  unfold notifyTickElapsed
  exact tickFold_supply _ (st, [])

theorem taxLoop_supply (gov : Nat) (st : ServerState) (accts : List Nat)
    (total : ℚ) :
    totalSupply (taxLoop gov st accts total).1 = totalSupply st := by
  induction accts generalizing st total with
  | nil => rfl
  | cons a rest ih =>
      rw [taxLoop_cons]
      by_cases hdue : getAccountTax st a ≠ 0
      · rw [if_pos hdue]
        cases htr : transfer st "@government" a gov (getAccountTax st a) with
        | ok st1 =>
            rw [ih st1 _]
            exact transfer_ok_supply st st1 _ a gov _ htr
        | error e => rfl
      · rw [if_neg hdue]
        exact ih st total

/-- C4 as amended: each successful transfer preserves the sum of the source
and destination balances and the total money supply; only `print_money` and
`remove_funds` change the total supply, each by exactly the amount involved;
tax collection, which is implemented as transfers into the government
account, leaves the total supply unchanged (contrary to the claim as
stated). -/
theorem money_supply_spec :
    (∀ st author s d amount st1 A B, getData st s = some A →
      getData st d = some B → s ≠ d →
      transfer st author s d amount = .ok st1 →
      ∃ A1 B1, getData st1 s = some A1 ∧ getData st1 d = some B1 ∧
        A1.balance + B1.balance = A.balance + B.balance) ∧
    (∀ st author s d amount st1, transfer st author s d amount = .ok st1 →
      totalSupply st1 = totalSupply st) ∧
    (∀ st i amount A, getData st i = some A →
      totalSupply (printMoney st i amount) = totalSupply st + amount) ∧
    (∀ st i amount A, getData st i = some A →
      totalSupply (removeFunds st i amount) = totalSupply st - amount) ∧
    (∀ gov st, totalSupply (taxCollect gov st).1 = totalSupply st) ∧
    (∀ st op, ¬ ChangesSupply op →
      totalSupply (applyOp st op) = totalSupply st) := by
  refine ⟨?_, ?_, ?_, ?_, ?_, ?_⟩
  · intro st author s d amount st1 A B hs hd hne htr
    unfold transfer at htr
    simp only [hs, hd] at htr
    by_cases hc : canTransfer A B amount = true
    · rw [if_pos hc] at htr
      injection htr with htr
      subst htr
      have h2 : getData (modifyAccount st s
          (fun a => { a with balance := a.balance - amount })) d = some B := by
        rw [getData_modify_ne st s d _ (Ne.symm hne)]; exact hd
      refine ⟨{ A with balance := A.balance - amount },
        { B with balance := B.balance + amount }, ?_, ?_, by simp only; ring⟩
      · rw [getData_modify_ne _ d s _ hne]
        exact getData_modify_self st s _ A hs
      · exact getData_modify_self _ d _ B h2
    · rw [if_neg hc] at htr
      exact Except.noConfusion htr
  · exact fun st author s d amount st1 htr =>
      transfer_ok_supply st st1 author s d amount htr
  · intro st i amount A hA
    unfold printMoney
    rw [totalSupply_modify st i _ A hA]
    simp only
    ring
  · intro st i amount A hA
    unfold removeFunds
    rw [totalSupply_modify st i _ A hA]
    simp only
    ring
  · intro gov st
    unfold taxCollect
    exact taxLoop_supply gov st (listAccounts st) 0
  · intro st op hns
    cases op with
    | openAcc id uuidOpt fresh =>
        show totalSupply (match openAccount st id uuidOpt fresh with
          | .ok r => r.1 | .error _ => st) = totalSupply st
        unfold openAccount
        by_cases hex : hasAccount st id = true
        · simp only [hex, if_true]
        · simp only [hex, if_false]
          unfold totalSupply
          simp [mkInMemoryAccount]
    | addAlias objId aliasId => rfl
    | transferOp author source destination amount =>
        show totalSupply (match transfer st author source destination amount with
          | .ok st1 => st1 | .error _ => st) = totalSupply st
        cases htr : transfer st author source destination amount with
        | ok st1 => exact transfer_ok_supply st st1 author source destination amount htr
        | error e => rfl
    | printMoneyOp objId amount => exact absurd trivial hns
    | removeFundsOp objId amount => exact absurd trivial hns
    | setFrozenOp objId b => exact totalSupply_modify_keep st objId _ (fun a => rfl)
    | authorizeOp objId lvl => exact totalSupply_modify_keep st objId _ (fun a => rfl)
    | markPublicOp objId b => exact totalSupply_modify_keep st objId _ (fun a => rfl)
    | addPublicKeyOp objId key =>
        exact totalSupply_modify_keep st objId _ (fun a => rfl)
    | addProxyOp accountObj proxiedObj =>
        exact totalSupply_modify_keep st proxiedObj _ (fun a => rfl)
    | removeProxyOp accountObj proxiedObj =>
        show totalSupply (removeProxy st accountObj proxiedObj).1 = totalSupply st
        unfold removeProxy
        cases hp : getData st proxiedObj with
        | none => rfl
        | some P =>
            by_cases hin : accountObj ∈ P.proxies
            · simp only [hin, if_true]
              exact totalSupply_modify_keep st proxiedObj _ (fun a => rfl)
            · simp only [hin, if_false]
    | createRecurringOp author source destination total ticks tid => rfl
    | performRecurringOp tid amount =>
        show totalSupply (match performRecurringTransfer st tid amount with
          | .ok st1 => st1 | .error _ => st) = totalSupply st
        cases hp : performRecurringTransfer st tid amount with
        | ok st1 => exact performRecurring_supply st st1 tid amount hp
        | error e => rfl
    | tickOp => exact notifyTick_supply st
    | addTaxBracketOp start stop rate name => rfl
    | removeTaxBracketOp name => rfl
    | forceTaxOp => exact taxLoop_supply 0 st (listAccounts st) 0

/-- Witness for `money_supply_spec`: printing 7 units to the government
account raises the total supply from 0 to 7. -/
theorem money_supply_spec_witness :
    totalSupply (printMoney initialState 0 7) = totalSupply initialState + 7 :=
  money_supply_spec.2.2.1 initialState 0 7
    { uuid := "gov-uuid", balance := 0, frozen := false, public := false,
      auth := .developer, publicKeys := [], proxies := [] }
    (by with_unfolding_all rfl)

end Taubot
